import Mathlib

set_option linter.unusedSectionVars false

/-!
Verification of the mesh-loading / deduplication pipeline (`model.cpp`) and the
transform state machine (`mainview.cpp`) of the CG-Abheastian viewer.

Positions are 3-component vectors compared by exact component-wise equality
(QVector3D::operator== is an exact floating-point comparison), so we model the
component type as an arbitrary type `α` with decidable equality; concrete
instantiations in witnesses use `ℤ` or `ℚ`.  Fallible operations (out-of-bounds
QVector/QList accesses, which are assertion failures / undefined behaviour in
the C++ source) are modelled with `Option`, `none` marking the fault.
-/

namespace Model

variable {α : Type} [DecidableEq α]

/-- A 3-component position, as held by a `QVector3D`. -/
abbrev Pos (α : Type) : Type := α × α × α

/-- Positions are looked up (`QVector::contains` / `QVector::indexOf`) with
`QVector3D::operator==`, an exact component-wise comparison: the boolean
equality induced by decidable equality of the components. -/
instance (priority := 2000) : BEq (Pos α) := instBEqOfDecidableEq

instance (priority := 2000) : LawfulBEq (Pos α) where
  eq_of_beq h := of_decide_eq_true h
  rfl := by simp [BEq.beq]

/-- One input line of the .obj source, after the classification the `Model`
constructor performs: `comment` is a line starting with `#` (checked before
tokenization); the remaining constructors describe the token list obtained by
`line.split(" ", Qt::SkipEmptyParts)`: `blank` is an empty token list, `vLine
nums` has first token `"v"` and `nums` the float values of the remaining
tokens, `fLine refs` has first token `"f"` and `refs` the `toUInt` values of
the first `/`-separated field of each remaining token (1-based references),
and `other tag` is a nonempty token list whose first token `tag` is neither
`"v"` nor `"f"`. -/
inductive Line (α : Type) where
  | comment : Line α
  | blank : Line α
  | vLine (nums : List α) : Line α
  | fLine (refs : List Nat) : Line α
  | other (tag : String) : Line α

/-- `Model::parseVertex`: appends `QVector3D(tokens[1].toFloat(),
tokens[2].toFloat(), tokens[3].toFloat())`.  Accessing `tokens[1..3]` is
out of bounds (`none`) when fewer than three numeric tokens follow the tag. -/
def parseVertex (coordsIndexed : List (Pos α)) (nums : List α) :
    Option (List (Pos α)) :=
  match nums with
  | x :: y :: z :: _ => some (coordsIndexed ++ [(x, y, z)])
  | _ => none

/-- `elements[0].toUInt() - 1` on an unsigned 32-bit integer: subtraction of 1
wraps modulo `2^32` (a reference of `0` stores `2^32 - 1`). -/
def toIdx (r : Nat) : Nat := (r + (2 ^ 32 - 1)) % 2 ^ 32

/-- `Model::parseFace`: for every token after the tag, appends the first
`/`-separated field, parsed with `toUInt()`, minus one (the source counts
from 1). -/
def parseFace (indices : List Nat) (refs : List Nat) : List Nat :=
  indices ++ refs.map toIdx

/-- One iteration of the constructor's read loop: skip comments, dispatch on
the first token (`tokens[0]`, out of bounds on a blank line), ignore tags
other than `"v"` and `"f"`.  State is `(coordsIndexed, indices)`. -/
def stepLine (st : List (Pos α) × List Nat) : Line α →
    Option (List (Pos α) × List Nat)
  | .comment => some st
  | .blank => none
  | .vLine nums => (parseVertex st.1 nums).map fun ci => (ci, st.2)
  | .fLine refs => some (st.1, parseFace st.2 refs)
  | .other _ => some st

/-- The constructor's read loop over the whole source, starting from empty
`coordsIndexed` and `indices`. -/
def loadLines (ls : List (Line α)) : Option (List (Pos α) × List Nat) :=
  ls.foldlM stepLine ([], [])

/-- Reads `coordsIndexed[indices[i]]` for each `i` in order: the body of both
`Model::unpackIndexes` and the read in `Model::alignData`'s loop.  An index
out of range is an out-of-bounds `QVector` access (`none`). -/
def resolveRefs (coordsIndexed : List (Pos α)) : List Nat →
    Option (List (Pos α))
  | [] => some []
  | j :: rest => do
      let v ← coordsIndexed.get? j
      let tail ← resolveRefs coordsIndexed rest
      pure (v :: tail)

/-- `Model::unpackIndexes`: `coords` receives `coordsIndexed[indices[i]]` for
every `i`. -/
def unpackIndexes (coordsIndexed : List (Pos α)) (indices : List Nat) :
    Option (List (Pos α)) :=
  resolveRefs coordsIndexed indices

/-- One iteration of `Model::alignData`'s loop on state `(verts, ind)` and
resolved vertex `v`: if `verts.contains(v)` append `verts.indexOf(v)` to
`ind`, else append `v` to `verts` and the running creation counter — which
always equals `verts.size()` at that point — to `ind`. -/
def alignStep (acc : List (Pos α) × List Nat) (v : Pos α) :
    List (Pos α) × List Nat :=
  if v ∈ acc.1 then (acc.1, acc.2 ++ [acc.1.indexOf v])
  else (acc.1 ++ [v], acc.2 ++ [acc.1.length])

/-- `Model::alignData`: resolve `coordsIndexed[indices[i]]` for each `i` and
fold `alignStep` over the resolved sequence starting from empty `verts` and
`ind`; the result replaces `(coordsIndexed, indices)`. -/
def alignData (coordsIndexed : List (Pos α)) (indices : List Nat) :
    Option (List (Pos α) × List Nat) := do
  let flat ← resolveRefs coordsIndexed indices
  pure (flat.foldl alignStep ([], []))

/-- The fields of a fully constructed `Model`. -/
structure ModelData (α : Type) where
  coordsIndexed : List (Pos α)
  indices : List Nat
  coords : List (Pos α)
deriving DecidableEq

/-- `Model::Model` on a readable source: run the read loop over all lines,
then `unpackIndexes()`, then `alignData()`. -/
def mkModel (ls : List (Line α)) : Option (ModelData α) := do
  let (ci, idx) ← loadLines ls
  let coords ← unpackIndexes ci idx
  let (ci2, idx2) ← alignData ci idx
  pure ⟨ci2, idx2, coords⟩

/-- `Model::getMeshCoords`. -/
def getMeshCoords (m : ModelData α) : List (Pos α) := m.coords

/-- `Model::getCoords`. -/
def getCoords (m : ModelData α) : List (Pos α) := m.coordsIndexed

/-- `Model::getTriangleIndices`. -/
def getTriangleIndices (m : ModelData α) : List Nat := m.indices

/-- `Model::getNumTriangles`: `coords.size() / 3`. -/
def getNumTriangles (m : ModelData α) : Nat := m.coords.length / 3

/-! ### Spec-side and derived notions used to state the claims -/

/-- One step of first-seen deduplication, following the spec's words
(§4.2 step 2): look the position up by exact equality; if absent, append it
with the next sequential index. -/
def dedupStep (acc : List (Pos α)) (v : Pos α) : List (Pos α) :=
  if v ∈ acc then acc else acc ++ [v]

/-- Modelled from the spec (§4.2): the unique-vertex list obtained by walking
the flat corner sequence once, keeping each position at its first occurrence,
in first-occurrence order. -/
def specFirstSeenDedup (flat : List (Pos α)) : List (Pos α) :=
  flat.foldl dedupStep []

/-- Positions contributed by one classified line (one per well-formed
`v` line). -/
def linePositions : Line α → List (Pos α)
  | .vLine (x :: y :: z :: _) => [(x, y, z)]
  | _ => []

/-- 1-based position references contributed by one classified line. -/
def lineRefs : Line α → List Nat
  | .fLine refs => refs
  | _ => []

/-- All positions of a source, in order. -/
def posOf (ls : List (Line α)) : List (Pos α) := (ls.map linePositions).flatten

/-- All 1-based face references of a source, in face order and reference
order. -/
def faceRefs (ls : List (Line α)) : List Nat := (ls.map lineRefs).flatten

/-- Number of positions loaded from a source. -/
def numV (ls : List (Line α)) : Nat := (posOf ls).length

/-- Whether a classified line is a face line. -/
def isFace : Line α → Bool
  | .fLine _ => true
  | _ => false

/-- Number of face lines of a source. -/
def countF (ls : List (Line α)) : Nat := (ls.filter isFace).length

/-- A line the loader processes without a fault, with references that stay in
range for a source holding `nv` positions: not blank, `v` lines carrying at
least three numeric tokens, face references `r` with `1 ≤ r ≤ nv`. -/
def okLine (nv : Nat) : Line α → Bool
  | .comment => true
  | .blank => false
  | .vLine nums => decide (3 ≤ nums.length)
  | .fLine refs => refs.all fun r => decide (1 ≤ r) && decide (r ≤ nv)
  | .other _ => true

/-- Whether a line is either not a face line or a triangular face line. -/
def triLine : Line α → Bool
  | .fLine refs => decide (refs.length = 3)
  | _ => true

/-- A valid mesh source: every line parses without a fault and every face
reference is in range (the position count stays below the `uint` wrap). -/
def ValidSource (ls : List (Line α)) : Prop :=
  (∀ l ∈ ls, okLine (numV ls) l = true) ∧ numV ls ≤ 2 ^ 32

instance (ls : List (Line α)) : Decidable (ValidSource ls) := by
  unfold ValidSource; infer_instance

/-- A valid mesh source all of whose faces are triangular. -/
def TriSource (ls : List (Line α)) : Prop :=
  ValidSource ls ∧ ∀ l ∈ ls, triLine l = true

instance (ls : List (Line α)) : Decidable (TriSource ls) := by
  unfold TriSource; infer_instance

/-! ### Properties of the deduplication fold -/

theorem dedupStep_mem_of_mem {vs : List (Pos α)} {v : Pos α} (w : Pos α)
    (h : v ∈ vs) : v ∈ dedupStep vs w := by
  by_cases hw : w ∈ vs <;> simp [dedupStep, hw, h]

theorem self_mem_dedupStep (vs : List (Pos α)) (v : Pos α) :
    v ∈ dedupStep vs v := by
  by_cases hv : v ∈ vs <;> simp [dedupStep, hv]

theorem mem_foldl_dedupStep (flat : List (Pos α)) :
    ∀ vs, ∀ v ∈ vs, v ∈ flat.foldl dedupStep vs := by
  induction flat with
  | nil => intro vs v hv; simpa using hv
  | cons w rest ih =>
      intro vs v hv
      rw [List.foldl_cons]
      exact ih _ _ (dedupStep_mem_of_mem w hv)

theorem indexOf_foldl_dedupStep (flat : List (Pos α)) :
    ∀ vs, ∀ v ∈ vs, (flat.foldl dedupStep vs).indexOf v = vs.indexOf v := by
  induction flat with
  | nil => intro vs v _; rfl
  | cons w rest ih =>
      intro vs v hv
      rw [List.foldl_cons, ih _ _ (dedupStep_mem_of_mem w hv)]
      by_cases hw : w ∈ vs
      · simp [dedupStep, hw]
      · simp only [dedupStep, hw, if_false]
        exact List.indexOf_append_of_mem hv

theorem mem_foldl_dedupStep_of_mem_flat :
    ∀ (flat : List (Pos α)) vs, ∀ v ∈ flat, v ∈ flat.foldl dedupStep vs := by
  intro flat
  induction flat with
  | nil => simp
  | cons w rest ih =>
      intro vs v hv
      rw [List.foldl_cons]
      rcases List.mem_cons.1 hv with h | h
      · subst h
        exact mem_foldl_dedupStep rest _ v (self_mem_dedupStep vs v)
      · exact ih _ v h

theorem nodup_foldl_dedupStep (flat : List (Pos α)) :
    ∀ vs, vs.Nodup → (flat.foldl dedupStep vs).Nodup := by
  induction flat with
  | nil => intro vs h; simpa using h
  | cons w rest ih =>
      intro vs hvs
      rw [List.foldl_cons]
      apply ih
      by_cases hw : w ∈ vs
      · simpa [dedupStep, hw] using hvs
      · simp [dedupStep, hw, List.nodup_append, hvs]

theorem foldl_alignStep_eq (flat : List (Pos α)) :
    ∀ (vs : List (Pos α)) (ind : List Nat),
      flat.foldl alignStep (vs, ind) =
        (flat.foldl dedupStep vs,
          ind ++ flat.map fun v => (flat.foldl dedupStep vs).indexOf v) := by
  induction flat with
  | nil => intro vs ind; simp
  | cons w rest ih =>
      intro vs ind
      simp only [List.foldl_cons, List.map_cons]
      by_cases hw : w ∈ vs
      · have h1 : alignStep (vs, ind) w = (vs, ind ++ [vs.indexOf w]) := by
          simp [alignStep, hw]
        have h2 : dedupStep vs w = vs := by simp [dedupStep, hw]
        have h3 : (rest.foldl dedupStep vs).indexOf w = vs.indexOf w :=
          indexOf_foldl_dedupStep rest vs w hw
        rw [h1, h2, ih]
        simp [h3]
      · have h1 : alignStep (vs, ind) w = (vs ++ [w], ind ++ [vs.length]) := by
          simp [alignStep, hw]
        have h2 : dedupStep vs w = vs ++ [w] := by simp [dedupStep, hw]
        have hmem : w ∈ vs ++ [w] := by simp
        have h3 : (rest.foldl dedupStep (vs ++ [w])).indexOf w = vs.length := by
          rw [indexOf_foldl_dedupStep rest _ w hmem,
            List.indexOf_append_of_not_mem hw, List.indexOf_cons_self]
          rfl
        rw [h1, h2, ih]
        simp [h3]

/-! ### Properties of reference resolution and the read loop -/

theorem resolveRefs_isSome_of_lt {ci : List (Pos α)} :
    ∀ {idx : List Nat}, (∀ j ∈ idx, j < ci.length) →
      ∃ flat, resolveRefs ci idx = some flat ∧ flat.length = idx.length := by
  intro idx
  induction idx with
  | nil => intro _; exact ⟨[], rfl, rfl⟩
  | cons j rest ih =>
      intro h
      obtain ⟨flat, hf, hl⟩ := ih fun k hk => h k (List.mem_cons_of_mem _ hk)
      have hj : j < ci.length := h j (List.mem_cons_self _ _)
      have hv : ci[j]? = some ci[j] := List.getElem?_eq_getElem hj
      exact ⟨ci[j] :: flat, by simp [resolveRefs, hv, hf], by simp [hl]⟩

theorem stepLine_eq_of_okLine {nv : Nat} {l : Line α} (h : okLine nv l = true)
    (st : List (Pos α) × List Nat) :
    stepLine st l =
      some (st.1 ++ linePositions l, st.2 ++ (lineRefs l).map toIdx) := by
  cases l with
  | comment => simp [stepLine, linePositions, lineRefs]
  | blank => simp [okLine] at h
  | vLine nums =>
      rcases nums with _ | ⟨x, _ | ⟨y, _ | ⟨z, rest⟩⟩⟩
      · simp [okLine] at h
      · simp [okLine] at h
      · simp [okLine] at h
      · simp [stepLine, parseVertex, linePositions, lineRefs]
  | fLine refs => simp [stepLine, parseFace, linePositions, lineRefs]
  | other tag => simp [stepLine, linePositions, lineRefs]

theorem foldlM_stepLine {nv : Nat} :
    ∀ (ls : List (Line α)), (∀ l ∈ ls, okLine nv l = true) →
      ∀ st : List (Pos α) × List Nat,
        ls.foldlM stepLine st =
          some (st.1 ++ (ls.map linePositions).flatten,
                st.2 ++ ((ls.map lineRefs).flatten).map toIdx) := by
  intro ls
  induction ls with
  | nil => intro _ st; simp
  | cons l rest ih =>
      intro h st
      have hl := h l (List.mem_cons_self _ _)
      have hr : ∀ x ∈ rest, okLine nv x = true := fun x hx =>
        h x (List.mem_cons_of_mem _ hx)
      rw [List.foldlM_cons, stepLine_eq_of_okLine hl st]
      simp only [Option.bind_eq_bind, Option.some_bind]
      rw [ih hr _]
      simp

theorem loadLines_eq_of_ok {ls : List (Line α)} {nv : Nat}
    (h : ∀ l ∈ ls, okLine nv l = true) :
    loadLines ls = some (posOf ls, (faceRefs ls).map toIdx) := by
  unfold loadLines posOf faceRefs
  rw [foldlM_stepLine ls h ([], [])]
  simp

theorem toIdx_spec {r nv : Nat} (h1 : 1 ≤ r) (h2 : r ≤ nv)
    (h3 : nv ≤ 2 ^ 32) : toIdx r = r - 1 ∧ toIdx r < nv := by
  unfold toIdx
  have hp : (2 : Nat) ^ 32 = 4294967296 := by norm_num
  rw [hp]
  omega

theorem mem_faceRefs {ls : List (Line α)} {r : Nat} (h : r ∈ faceRefs ls) :
    ∃ l ∈ ls, r ∈ lineRefs l := by
  unfold faceRefs at h
  rw [List.mem_flatten] at h
  obtain ⟨a, ha, hra⟩ := h
  obtain ⟨l, hl, rfl⟩ := List.mem_map.1 ha
  exact ⟨l, hl, hra⟩

theorem refs_ok_of_valid {ls : List (Line α)} (h : ValidSource ls) :
    ∀ r ∈ faceRefs ls, 1 ≤ r ∧ r ≤ numV ls := by
  intro r hr
  obtain ⟨l, hl, hrl⟩ := mem_faceRefs hr
  have hok := h.1 l hl
  cases l with
  | comment => simp [lineRefs] at hrl
  | blank => simp [lineRefs] at hrl
  | vLine nums => simp [lineRefs] at hrl
  | fLine refs =>
      simp only [lineRefs] at hrl
      simp only [okLine, List.all_eq_true, Bool.and_eq_true, decide_eq_true_eq]
        at hok
      exact hok r hrl
  | other tag => simp [lineRefs] at hrl

theorem idx_lt_of_valid {ls : List (Line α)} (h : ValidSource ls) :
    ∀ j ∈ (faceRefs ls).map toIdx, j < numV ls := by
  intro j hj
  obtain ⟨r, hr, rfl⟩ := List.mem_map.1 hj
  obtain ⟨h1, h2⟩ := refs_ok_of_valid h r hr
  exact (toIdx_spec h1 h2 h.2).2

/-- Inversion of a successful construction: the final fields are the
first-seen deduplication of the resolved flat corner sequence, the matching
first-occurrence indices, and the flat sequence itself. -/
theorem mkModel_eq_some_inv {ls : List (Line α)} {m : ModelData α}
    (h : mkModel ls = some m) :
    ∃ ci idx flat, loadLines ls = some (ci, idx) ∧
      resolveRefs ci idx = some flat ∧
      m = ⟨specFirstSeenDedup flat,
            flat.map fun v => (specFirstSeenDedup flat).indexOf v, flat⟩ := by
  unfold mkModel at h
  cases hL : loadLines ls with
  | none => rw [hL] at h; simp at h
  | some p =>
      obtain ⟨ci, idx⟩ := p
      rw [hL] at h
      cases hR : resolveRefs ci idx with
      | none =>
          have hU : unpackIndexes ci idx = none := hR
          simp only [Option.bind_eq_bind, Option.some_bind, hU,
            Option.none_bind] at h
          exact absurd h (by simp)
      | some flat =>
          have hU : unpackIndexes ci idx = some flat := hR
          have hA : alignData ci idx =
              some (specFirstSeenDedup flat,
                flat.map fun v => (specFirstSeenDedup flat).indexOf v) := by
            simp [alignData, hR, foldl_alignStep_eq, specFirstSeenDedup]
          simp only [Option.bind_eq_bind, Option.some_bind, hU, hA,
            Option.pure_def, Option.some_inj] at h
          exact ⟨ci, idx, flat, rfl, hR, h.symm⟩

/-- A valid source constructs successfully, with the fields predicted by
`mkModel_eq_some_inv` and the flat corner sequence one entry per face
reference. -/
theorem mkModel_of_valid {ls : List (Line α)} (h : ValidSource ls) :
    ∃ flat : List (Pos α),
      flat.length = (faceRefs ls).length ∧
      mkModel ls = some ⟨specFirstSeenDedup flat,
        flat.map fun v => (specFirstSeenDedup flat).indexOf v, flat⟩ := by
  have hL := loadLines_eq_of_ok h.1
  obtain ⟨flat, hR, hlen⟩ :=
    resolveRefs_isSome_of_lt
      (show ∀ j ∈ (faceRefs ls).map toIdx, j < (posOf ls).length from
        idx_lt_of_valid h)
  refine ⟨flat, by simpa using hlen, ?_⟩
  unfold mkModel
  rw [hL]
  have hU : unpackIndexes (posOf ls) ((faceRefs ls).map toIdx) = some flat :=
    hR
  have hA : alignData (posOf ls) ((faceRefs ls).map toIdx) =
      some (specFirstSeenDedup flat,
        flat.map fun v => (specFirstSeenDedup flat).indexOf v) := by
    simp [alignData, hR, foldl_alignStep_eq, specFirstSeenDedup]
  simp only [Option.bind_eq_bind, Option.some_bind, hU, hA, Option.pure_def]

/-- In a source all of whose face lines are triangular, the reference count is
three per face line. -/
theorem faceRefs_length_of_tri {ls : List (Line α)}
    (h : ∀ l ∈ ls, triLine l = true) :
    (faceRefs ls).length = 3 * countF ls := by
  induction ls with
  | nil => simp [faceRefs, countF]
  | cons l rest ih =>
      have hl := h l (List.mem_cons_self _ _)
      have hr : ∀ x ∈ rest, triLine x = true := fun x hx =>
        h x (List.mem_cons_of_mem _ hx)
      have hrest := ih hr
      cases l with
      | comment =>
          simpa [faceRefs, countF, lineRefs, isFace, List.filter_cons]
            using hrest
      | blank =>
          simpa [faceRefs, countF, lineRefs, isFace, List.filter_cons]
            using hrest
      | vLine nums =>
          simpa [faceRefs, countF, lineRefs, isFace, List.filter_cons]
            using hrest
      | fLine refs =>
          simp only [triLine, decide_eq_true_eq] at hl
          simp only [faceRefs, countF, lineRefs, isFace, List.filter_cons,
            List.map_cons, List.flatten_cons, List.length_append,
            List.length_cons, if_pos]
          simp only [faceRefs, countF] at hrest
          omega
      | other tag =>
          simpa [faceRefs, countF, lineRefs, isFace, List.filter_cons]
            using hrest

theorem loadLines_other (ls1 ls2 : List (Line α)) (tag : String) :
    loadLines (ls1 ++ Line.other tag :: ls2) = loadLines (ls1 ++ ls2) := by
  unfold loadLines
  rw [List.foldlM_append, List.foldlM_append]
  cases hst : List.foldlM stepLine (([], []) : List (Pos α) × List Nat) ls1
    with
  | none => simp
  | some st => simp [List.foldlM_cons, stepLine]

/-! ### Concrete sources used by witnesses and counterexamples -/

/-- The spec's scenario source: four distinct positions, two triangles
sharing the edge `2–3`. -/
def demoSrc : List (Line Int) :=
  [.vLine [0, 0, 0], .vLine [1, 0, 0], .vLine [0, 1, 0], .vLine [1, 1, 0],
   .fLine [1, 2, 3], .fLine [2, 4, 3]]

/-- The model constructed from `demoSrc`. -/
def demoModel : ModelData Int :=
  ⟨[(0, 0, 0), (1, 0, 0), (0, 1, 0), (1, 1, 0)],
   [0, 1, 2, 1, 3, 2],
   [(0, 0, 0), (1, 0, 0), (0, 1, 0), (1, 0, 0), (1, 1, 0), (0, 1, 0)]⟩

/-- A source in which the same position occurs as two distinct `v` records
and is referenced twice by the single face. -/
def dupSrc : List (Line Int) :=
  [.vLine [0, 0, 0], .vLine [0, 0, 0], .vLine [1, 0, 0], .fLine [1, 2, 3]]

/-- The model constructed from `dupSrc`: the two equal positions merge into
one unique vertex whose index is reused. -/
def dupModel : ModelData Int :=
  ⟨[(0, 0, 0), (1, 0, 0)], [0, 0, 1], [(0, 0, 0), (0, 0, 0), (1, 0, 0)]⟩

/-- The spec's malformed input: a face referencing position 99 when only 4
positions were loaded. -/
def badRefSrc : List (Line Int) :=
  [.vLine [0, 0, 0], .vLine [1, 0, 0], .vLine [0, 1, 0], .vLine [0, 0, 1],
   .fLine [99, 1, 2]]

/-- A source with a quadrilateral (4-reference) face, all references in
range. -/
def quadSrc : List (Line Int) :=
  [.vLine [0, 0, 0], .vLine [1, 0, 0], .vLine [0, 1, 0], .vLine [1, 1, 0],
   .fLine [1, 2, 3, 4]]

/-- A source holding a single triangle. -/
def triSrc : List (Line Int) :=
  [.vLine [0, 0, 0], .vLine [1, 0, 0], .vLine [0, 1, 0], .fLine [1, 2, 3]]

/-! ### The claims -/

/-- C1: after a successful construction, the unique coordinate list
(`getCoords`) has no two equal positions (equality being the exact
component-wise match of the position type), equals the first-seen
deduplication of the flat per-face corner sequence (so positions appear in
order of first occurrence, and positions differing in any component remain
distinct entries), and every corner's entry in the index list is the
first-occurrence index of that corner's position in the unique list — a
repeated position reuses the existing index. -/
theorem C1_dedup_exact_first_seen {ls : List (Line α)} {m : ModelData α}
    (h : mkModel ls = some m) :
    (getCoords m).Nodup ∧
    getCoords m = specFirstSeenDedup (getMeshCoords m) ∧
    (getTriangleIndices m).length = (getMeshCoords m).length ∧
    ∀ i : Nat, ∀ v : Pos α, (getMeshCoords m).get? i = some v →
      (getTriangleIndices m).get? i = some ((getCoords m).indexOf v) := by
  obtain ⟨ci, idx, flat, hL, hR, rfl⟩ := mkModel_eq_some_inv h
  refine ⟨nodup_foldl_dedupStep flat [] List.nodup_nil, rfl,
    by simp [getTriangleIndices, getMeshCoords], ?_⟩
  intro i v hv
  simp only [getMeshCoords] at hv
  simp only [getTriangleIndices, getCoords, List.get?_map, hv, Option.map_some']

/-- Witness for C1: the concrete source `dupSrc`, whose repeated position
`(0,0,0)` merges to one unique vertex with its index reused at corner 1. -/
theorem C1_dedup_exact_first_seen_witness :
    (getCoords dupModel).Nodup ∧
    getCoords dupModel = specFirstSeenDedup (getMeshCoords dupModel) ∧
    (getTriangleIndices dupModel).get? 1 =
      some ((getCoords dupModel).indexOf ((0 : Int), 0, 0)) :=
  ⟨(C1_dedup_exact_first_seen (show mkModel dupSrc = some dupModel by decide)).1,
   (C1_dedup_exact_first_seen (show mkModel dupSrc = some dupModel by decide)).2.1,
   (C1_dedup_exact_first_seen (show mkModel dupSrc = some dupModel by decide)).2.2.2 1 (0, 0, 0)
     (by decide)⟩

/-- C2: a valid all-triangular source with `F` face lines constructs
successfully with an index list of length `3·F`, a triangle count of `F`,
and every index strictly below the unique-coordinate count. -/
theorem C2_lengths_and_bounds {ls : List (Line α)} (h : TriSource ls) :
    ∃ m : ModelData α, mkModel ls = some m ∧
      (getTriangleIndices m).length = 3 * countF ls ∧
      getNumTriangles m = countF ls ∧
      ∀ j ∈ getTriangleIndices m, j < (getCoords m).length := by
  obtain ⟨flat, hlen, hM⟩ := mkModel_of_valid h.1
  have h3 : flat.length = 3 * countF ls := by
    rw [hlen, faceRefs_length_of_tri h.2]
  refine ⟨_, hM, by simp [getTriangleIndices, h3], ?_, ?_⟩
  · simp only [getNumTriangles]
    omega
  · intro j hj
    simp only [getTriangleIndices] at hj
    obtain ⟨v, hv, rfl⟩ := List.mem_map.1 hj
    have hmem : v ∈ specFirstSeenDedup flat :=
      mem_foldl_dedupStep_of_mem_flat flat [] v hv
    simpa [getCoords] using List.indexOf_lt_length.2 hmem

/-- Witness for C2: the spec's scenario source `demoSrc` (4 positions, 2
triangular faces sharing an edge). -/
theorem C2_lengths_and_bounds_witness :
    TriSource demoSrc ∧
    ∃ m : ModelData Int, mkModel demoSrc = some m ∧
      (getTriangleIndices m).length = 3 * countF demoSrc ∧
      getNumTriangles m = countF demoSrc ∧
      ∀ j ∈ getTriangleIndices m, j < (getCoords m).length :=
  ⟨by decide, C2_lengths_and_bounds (by decide)⟩

/-- C3: the flat vertex array is the pure re-expansion of the canonical
indexed representation: it has the same length as the index list and each of
its entries equals the unique coordinate selected by the corresponding
index. -/
theorem C3_flat_is_reexpansion {ls : List (Line α)} {m : ModelData α}
    (h : mkModel ls = some m) :
    (getMeshCoords m).length = (getTriangleIndices m).length ∧
    ∀ i : Nat, ∀ v : Pos α, (getMeshCoords m).get? i = some v →
      ∃ j : Nat, (getTriangleIndices m).get? i = some j ∧
        (getCoords m).get? j = some v := by
  obtain ⟨ci, idx, flat, hL, hR, rfl⟩ := mkModel_eq_some_inv h
  refine ⟨by simp [getMeshCoords, getTriangleIndices], ?_⟩
  intro i v hv
  simp only [getMeshCoords] at hv
  have hmem : v ∈ specFirstSeenDedup flat :=
    mem_foldl_dedupStep_of_mem_flat flat [] v (List.get?_mem hv)
  refine ⟨(specFirstSeenDedup flat).indexOf v, ?_, ?_⟩
  · simp only [getTriangleIndices, List.get?_map, hv, Option.map_some']
  · simpa [getCoords] using List.indexOf_get? hmem

/-- Witness for C3 at `demoSrc`: corner 3 carries position `(1,0,0)`, whose
index points back at that same unique coordinate. -/
theorem C3_flat_is_reexpansion_witness :
    (getMeshCoords demoModel).length = (getTriangleIndices demoModel).length ∧
    ∃ j : Nat, (getTriangleIndices demoModel).get? 3 = some j ∧
      (getCoords demoModel).get? j = some ((1 : Int), 0, 0) :=
  ⟨(C3_flat_is_reexpansion (show mkModel demoSrc = some demoModel by decide)).1,
   (C3_flat_is_reexpansion (show mkModel demoSrc = some demoModel by decide)).2 3 (1, 0, 0)
     (by decide)⟩

/-- C4: at the spec's failing input — a face referencing position 99 when
only 4 positions are loaded — construction yields no model data.  In the C++
source this is an out-of-bounds `QVector` access inside
`Model::unpackIndexes` (an assertion failure / undefined behaviour), not a
raised `MalformedInputError`: no error object of that kind exists in the
code. -/
theorem C4_out_of_range_ref_faults : mkModel badRefSrc = none := by decide

/-- C7 counterexample: a 4-reference (quadrilateral) face is accepted —
construction succeeds, `parseFace` appending all four references — refuting
the claim that a non-triangular face makes construction fail. -/
theorem C7_quad_face_accepted :
    (mkModel quadSrc).isSome = true ∧
    (mkModel quadSrc).map getTriangleIndices = some [0, 1, 2, 3] := by
  decide

/-- C7 as amended: a face line with any number of in-range references is
accepted without error, contributing one (0-based) index per reference;
triangulation is not attempted. -/
theorem C7_amended_any_arity_accepted {ls : List (Line α)}
    (h : ValidSource ls) :
    ∃ m : ModelData α, mkModel ls = some m ∧
      (getTriangleIndices m).length = (faceRefs ls).length ∧
      (getMeshCoords m).length = (faceRefs ls).length := by
  obtain ⟨flat, hlen, hM⟩ := mkModel_of_valid h
  exact ⟨_, hM, by simp [getTriangleIndices, hlen],
    by simp [getMeshCoords, hlen]⟩

/-- Witness for the amended C7 at the quadrilateral source. -/
theorem C7_amended_any_arity_accepted_witness :
    ValidSource quadSrc ∧
    ∃ m : ModelData Int, mkModel quadSrc = some m ∧
      (getTriangleIndices m).length = (faceRefs quadSrc).length ∧
      (getMeshCoords m).length = (faceRefs quadSrc).length :=
  ⟨by decide, C7_amended_any_arity_accepted (by decide)⟩

/-- C8: a comment line is skipped with no effect on the parsed output, but a
blank line is NOT skipped: it reaches `tokens[0]` on an empty token list —
an out-of-bounds `QList` access — so the embedded construction faults
instead of proceeding. -/
theorem C8_comment_skipped_blank_faults :
    mkModel ([Line.comment] : List (Line Int)) = some ⟨[], [], []⟩ ∧
    mkModel ([Line.blank] : List (Line Int)) = none := by decide

/-- C10: a non-blank, non-comment line whose first token is neither `v` nor
`f` is silently ignored: inserting it anywhere leaves the loaded position
and face-index lists — and the whole constructed model — unchanged. -/
theorem C10_unknown_tag_ignored (ls1 ls2 : List (Line α)) (tag : String) :
    loadLines (ls1 ++ Line.other tag :: ls2) = loadLines (ls1 ++ ls2) ∧
    mkModel (ls1 ++ Line.other tag :: ls2) = mkModel (ls1 ++ ls2) := by
  refine ⟨loadLines_other ls1 ls2 tag, ?_⟩
  unfold mkModel
  rw [loadLines_other]

end Model

namespace MainView

/-!
The transform state machine of `mainview.cpp`.  `QMatrix4x4` values form a
monoid under matrix multiplication (`setToIdentity` giving the unit), and
each Qt mutator (`translate`, `rotate`, `scale`) post-multiplies the matrix
by the matrix of the corresponding elementary transformation.  The
elementary-transformation constructors are library code, kept abstract here:
rotation about the X/Y/Z world axis by an `int` number of degrees, uniform
scale by a factor (a `float`, modelled as `ℚ`), and the two fixed
translations `(-2,0,-6)` (pyramid) and `(2,0,-6)` (knot). -/

/-- The abstract elementary-transformation matrices used by `MainView`. -/
structure MatrixOps (M : Type) where
  rotateX : Int → M
  rotateY : Int → M
  rotateZ : Int → M
  scale : Rat → M
  translatePyramid : M
  translateKnot : M

/-- The transform state of `MainView`: stored rotation angles (`int rotX`,
`rotY`, `rotZ`, initially 0), stored scale factor (`float scaling`,
initially 1), and the two model matrices. -/
structure MainViewState (M : Type) where
  rotX : Int
  rotY : Int
  rotZ : Int
  scaling : Rat
  model : M
  knotModel : M

variable {M : Type} [Monoid M]

/-- `MainView::rotateAndScale`: reset both model matrices to the identity,
re-apply the fixed translation, then rotate about X, then Y, then Z by the
stored angles, then apply the stored uniform scale — each Qt call
post-multiplying the matrix in program order. -/
def rotateAndScale (ops : MatrixOps M) (st : MainViewState M) :
    MainViewState M :=
  { st with
    model := ((((1 * ops.translatePyramid) * ops.rotateX st.rotX) *
      ops.rotateY st.rotY) * ops.rotateZ st.rotZ) * ops.scale st.scaling,
    knotModel := ((((1 * ops.translateKnot) * ops.rotateX st.rotX) *
      ops.rotateY st.rotY) * ops.rotateZ st.rotZ) * ops.scale st.scaling }

/-- `MainView::setRotation`: store the three angles, then recompute both
matrices from the stored base values. -/
def setRotation (ops : MatrixOps M) (st : MainViewState M) (x y z : Int) :
    MainViewState M :=
  rotateAndScale ops { st with rotX := x, rotY := y, rotZ := z }

/-- `MainView::setScale`: store the factor, then recompute both matrices
from the stored base values. -/
def setScale (ops : MatrixOps M) (st : MainViewState M) (s : Rat) :
    MainViewState M :=
  rotateAndScale ops { st with scaling := s }

/-- C5: after `setRotation(x,y,z)` or `setScale(s)`, each instance group's
model matrix is the composition, starting from the identity, of its fixed
translation, then rotation about X, then Y, then Z by the stored angles,
then the uniform scale — in exactly that order. -/
theorem C5_composition_order (ops : MatrixOps M) (st : MainViewState M)
    (x y z : Int) (s : Rat) :
    (setRotation ops st x y z).model =
      ops.translatePyramid * ops.rotateX x * ops.rotateY y * ops.rotateZ z *
        ops.scale st.scaling ∧
    (setRotation ops st x y z).knotModel =
      ops.translateKnot * ops.rotateX x * ops.rotateY y * ops.rotateZ z *
        ops.scale st.scaling ∧
    (setScale ops st s).model =
      ops.translatePyramid * ops.rotateX st.rotX * ops.rotateY st.rotY *
        ops.rotateZ st.rotZ * ops.scale s ∧
    (setScale ops st s).knotModel =
      ops.translateKnot * ops.rotateX st.rotX * ops.rotateY st.rotY *
        ops.rotateZ st.rotZ * ops.scale s := by
  refine ⟨?_, ?_, ?_, ?_⟩ <;>
    simp [setRotation, setScale, rotateAndScale, one_mul]

/-- C6: transform updates do not accumulate: `setScale(s1)` followed by
`setScale(s2)` leaves the state exactly as `setScale(s2)` alone from the
same rotation state, and repeating `setRotation` with identical arguments is
idempotent — every mutation recomputes from the stored base values. -/
theorem C6_no_accumulation (ops : MatrixOps M) (st : MainViewState M)
    (s1 s2 : Rat) (x y z : Int) :
    setScale ops (setScale ops st s1) s2 = setScale ops st s2 ∧
    setRotation ops (setRotation ops st x y z) x y z =
      setRotation ops st x y z := by
  constructor <;> rfl

/-- The per-vertex record uploaded to the GPU.  Modelled from the spec
(§4.3): a 3-component position and a 3-component colour, tightly packed
(`vertex.h` itself is not among the sources; `mainview.h` and
`mainview.cpp` populate the six fields). -/
structure Vertex where
  x : Rat
  y : Rat
  z : Rat
  r : Rat
  g : Rat
  b : Rat

/-- Pyramid corner `a` of `mainview.h`. -/
def vertexA : Vertex := ⟨-1, 1, 1, 1, 0, 0⟩

/-- Pyramid corner `b` of `mainview.h`. -/
def vertexB : Vertex := ⟨1, 1, 1, 0, 1, 0⟩

/-- Pyramid corner `c` of `mainview.h`. -/
def vertexC : Vertex := ⟨0, 0, -1, 1, 0, 1⟩

/-- Pyramid corner `d` of `mainview.h`. -/
def vertexD : Vertex := ⟨1, -1, 1, 1, 1, 0⟩

/-- Pyramid corner `e` of `mainview.h`. -/
def vertexE : Vertex := ⟨-1, -1, 1, 0, 0, 1⟩

/-- The pyramid vertex array of `mainview.h`:
`{a,e,d,b,a,d,d,c,b,b,c,a,a,c,e,e,c,d}`. -/
def pyramid : List Vertex :=
  [vertexA, vertexE, vertexD, vertexB, vertexA, vertexD,
   vertexD, vertexC, vertexB, vertexB, vertexC, vertexA,
   vertexA, vertexC, vertexE, vertexE, vertexC, vertexD]

/-- The vertex count `MainView::paintGL` passes to `glDrawArrays` for the
pyramid: the literal `18`. -/
def pyramidDrawVertexCount : Nat := 18

/-- The vertex count `MainView::paintGL` passes to `glDrawArrays` for the
knot: the hard-coded literal `3840`, written independently of the loaded
model's vertex count. -/
def knotDrawVertexCount : Nat := 3840

/-- C9 counterexample: a loaded single-triangle mesh has a flat vertex array
of length 3, while the knot draw call's vertex count is the constant 3840 —
the draw size is not the mesh's flat vertex array length. -/
theorem C9_knot_draw_count_constant :
    (Model.mkModel Model.triSrc).map
      (fun m => (Model.getMeshCoords m).length) = some 3 ∧
    (3 : Nat) ≠ knotDrawVertexCount := by decide

/-- C9 as amended: the pyramid draw call is sized to the pyramid vertex
array (18 entries), while the knot draw call uses the fixed constant 3840
regardless of the loaded model. -/
theorem C9_amended_draw_counts :
    pyramidDrawVertexCount = pyramid.length ∧ knotDrawVertexCount = 3840 :=
  ⟨rfl, rfl⟩

end MainView
